import Mathlib

/-!
Verification of the Langulus `literal_t` fixed-capacity literal container
(`src/include/Langulus/Literal.hpp`).

The embedding models:
* the capacity-bucketing function `std::bit_ceil` used by `literal_t::Resized`
  and the array CTAD deduction guide (`bit_ceil`);
* the storage core `literal_t<T, N>`: an `N + 1`-slot buffer, the
  size-by-scan `size()`, `empty()`, element access, and the constructors and
  assignments (default, scalar, array, widening copy, array assignment);
* the mutation engine: the truncating append `operator+=` for both
  `literal_t` string operands and raw arrays, and `operator+` concatenation;
* `substr`, the bounds-checked and unchecked `operator[]`, and the
  branch-resolved forms of the cross-category `operator==`;
* the `Resized<M>` overloads of the find family with their capacity
  short-circuit.

Element types are modelled as an arbitrary type `T` with a distinguished
default value `0` (`Zero T`) and decidable equality, matching the C++
value-initialised elements and the `*ptr` truthiness test of the scan.
Machine `size_t` values stay below the capacities involved everywhere they
arise here, so `Nat` models them exactly; `npos` is `2 ^ 64 - 1`.
-/

namespace Langulus

/-- Fuel-driven search for the smallest power of two `2 ^ k` with `k ≥ e` that
is at least `m`; when the fuel runs out it returns the current candidate.
With fuel `m` and `e = 0` the search always terminates on the answer. -/
def bitCeilAux (m : Nat) : Nat → Nat → Nat
  | e, 0 => 2 ^ e
  | e, fuel + 1 => if m ≤ 2 ^ e then 2 ^ e else bitCeilAux m (e + 1) fuel

/-- Models `std::bit_ceil` on natural numbers: the smallest integral power of
two that is not smaller than `m`.  In particular `bit_ceil 0 = 1`, following
the C++ standard (`bit_ceil(x)` returns `1` for `x ≤ 1`).  This is the
capacity-bucketing function behind `literal_t::Resized` (Literal.hpp:290-291)
and the array deduction guide (Literal.hpp:539-540). -/
def bit_ceil (m : Nat) : Nat := bitCeilAux m 0 m

/-- The auxiliary search returns the least suitable exponent at or above its
starting point, provided enough fuel remains to reach one. -/
theorem bitCeilAux_spec (m : Nat) : ∀ fuel e : Nat, m ≤ 2 ^ (e + fuel) →
    ∃ k, e ≤ k ∧ bitCeilAux m e fuel = 2 ^ k ∧ m ≤ 2 ^ k ∧
      ∀ j, e ≤ j → m ≤ 2 ^ j → k ≤ j := by
  intro fuel
  induction fuel with
  | zero =>
    intro e h
    exact ⟨e, Nat.le_refl _, rfl, by simpa using h, fun j hj _ => hj⟩
  | succ fuel ih =>
    intro e h
    by_cases hme : m ≤ 2 ^ e
    · exact ⟨e, Nat.le_refl _, by simp [bitCeilAux, hme], hme, fun j hj _ => hj⟩
    · have h' : m ≤ 2 ^ (e + 1 + fuel) := by
        have : e + 1 + fuel = e + (fuel + 1) := by omega
        rwa [this]
      obtain ⟨k, hk1, hk2, hk3, hk4⟩ := ih (e + 1) h'
      refine ⟨k, by omega, ?_, hk3, ?_⟩
      · simpa [bitCeilAux, hme] using hk2
      · intro j hj hmj
        have hne : j ≠ e := fun he => hme (he ▸ hmj)
        exact hk4 j (by omega) hmj

/-- Characterisation of `bit_ceil`: it yields a power of two, at least `m`,
and no larger than any power of two that is at least `m`. -/
theorem bit_ceil_spec (m : Nat) :
    ∃ k, bit_ceil m = 2 ^ k ∧ m ≤ 2 ^ k ∧ ∀ j, m ≤ 2 ^ j → k ≤ j := by
  obtain ⟨k, _, h2, h3, h4⟩ :=
    bitCeilAux_spec m m 0 (by simpa using (Nat.lt_two_pow m).le)
  exact ⟨k, h2, h3, fun j hj => h4 j (Nat.zero_le j) hj⟩

/-- `bit_ceil m` is an upper bound for `m`. -/
theorem le_bit_ceil (m : Nat) : m ≤ bit_ceil m := by
  obtain ⟨k, hk, hm, _⟩ := bit_ceil_spec m
  exact hk ▸ hm

/-- `bit_ceil m` is below every power of two that is at least `m`. -/
theorem bit_ceil_le_pow {m j : Nat} (h : m ≤ 2 ^ j) : bit_ceil m ≤ 2 ^ j := by
  obtain ⟨k, hk, _, hmin⟩ := bit_ceil_spec m
  calc bit_ceil m = 2 ^ k := hk
    _ ≤ 2 ^ j := Nat.pow_le_pow_right (by omega) (hmin j h)

/-- Models the size-by-scan loop of `literal_t::size` (Literal.hpp:224-235):
walk the first `n` slots of the buffer and count the prefix of non-default
elements. -/
def scanSize {T : Type} [Zero T] [DecidableEq T] : List T → Nat → Nat
  | _, 0 => 0
  | [], _ + 1 => 0
  | c :: rest, n + 1 => if c = 0 then 0 else scanSize rest n + 1

/-- Full characterisation of the scan: it returns `k` exactly when the first
`k` scanned slots are non-default and the scan stops there (either the slot at
`k` is default or the scan bound is reached). -/
theorem scanSize_eq_iff {T : Type} [Zero T] [DecidableEq T] :
    ∀ (l : List T) (n k : Nat),
    scanSize l n = k ↔
      k ≤ n ∧ (∀ i, i < k → l.getD i 0 ≠ 0) ∧ (k < n → l.getD k 0 = 0) := by
  intro l
  induction l with
  | nil =>
    intro n k
    cases n with
    | zero =>
      simp only [scanSize]
      constructor
      · rintro rfl; exact ⟨Nat.le_refl _, by omega, by omega⟩
      · rintro ⟨h1, _, _⟩; omega
    | succ n =>
      simp only [scanSize]
      constructor
      · rintro rfl
        refine ⟨Nat.zero_le _, by omega, fun _ => by simp⟩
      · rintro ⟨h1, h2, h3⟩
        by_contra hk
        exact h2 0 (by omega) (by simp)
  | cons c rest ih =>
    intro n k
    cases n with
    | zero =>
      simp only [scanSize]
      constructor
      · rintro rfl; exact ⟨Nat.le_refl _, by omega, by omega⟩
      · rintro ⟨h1, _, _⟩; omega
    | succ n =>
      by_cases hc : c = 0
      · simp only [scanSize, if_pos hc]
        constructor
        · rintro rfl
          exact ⟨Nat.zero_le _, by omega, fun _ => by simpa using hc⟩
        · rintro ⟨h1, h2, h3⟩
          by_contra hk
          exact h2 0 (by omega) (by simpa using hc)
      · simp only [scanSize, if_neg hc]
        cases k with
        | zero =>
          constructor
          · intro h; omega
          · rintro ⟨h1, h2, h3⟩
            exact absurd (by simpa using h3 (by omega)) hc
        | succ k =>
          rw [Nat.add_right_cancel_iff, ih n k]
          constructor
          · rintro ⟨h1, h2, h3⟩
            refine ⟨by omega, ?_, ?_⟩
            · intro i hi
              cases i with
              | zero => simpa using hc
              | succ i => simpa using h2 i (by omega)
            · intro h; simpa using h3 (by omega)
          · rintro ⟨h1, h2, h3⟩
            refine ⟨by omega, ?_, ?_⟩
            · intro i hi
              simpa using h2 (i + 1) (by omega)
            · intro h; simpa using h3 (by omega)

/-- Models `Langulus::literal_t<T, N>` (Literal.hpp:136-530): a value type
whose storage is a `std::array<T, N + 1>`, kept here as a list of exactly
`N + 1` slots. -/
structure literal_t (T : Type) (N : Nat) where
  _data : List T
  hlen : _data.length = N + 1

/-- Reads storage slot `i`; models `_data[i]` (in range whenever `i ≤ N`). -/
def get {T : Type} [Zero T] {N : Nat} (x : literal_t T N) (i : Nat) : T :=
  x._data.getD i 0

/-- Builds an instance whose slot `i` holds `f i`; the common shape of every
`literal_t` constructor (value-initialised storage then slot-wise writes). -/
def mk_fn {T : Type} [Zero T] (N : Nat) (f : Nat → T) : literal_t T N :=
  ⟨(List.range (N + 1)).map f, by simp⟩

/-- Models `literal_t::size` (Literal.hpp:224-235): scan slots `0..N-1` until
the first default element; `0` for the `N == 0` (value/undefined) shapes. -/
def size {T : Type} [Zero T] [DecidableEq T] {N : Nat} (x : literal_t T N) : Nat :=
  scanSize x._data N

/-- Models `literal_t::empty` (Literal.hpp:237-242): for a string shape the
first slot is tested; value and undefined shapes report `true` always. -/
def empty {T : Type} [Zero T] [DecidableEq T] {N : Nat} (x : literal_t T N) : Bool :=
  if 0 < N then decide (get x 0 = 0) else true

/-- Models `literal_t::npos = std::basic_string_view::npos = size_t(-1)`. -/
def npos : Nat := 2 ^ 64 - 1

theorem get_mk_fn {T : Type} [Zero T] {N : Nat} (f : Nat → T) {i : Nat}
    (h : i ≤ N) : get (mk_fn N f) i = f i := by
  have hi : i < ((List.range (N + 1)).map f).length := by simp; omega
  rw [get, mk_fn, List.getD_eq_getElem _ _ hi]
  simp

theorem get_mk_fn_ge {T : Type} [Zero T] {N : Nat} (f : Nat → T) {i : Nat}
    (h : N < i) : get (mk_fn N f) i = 0 := by
  rw [get, mk_fn, List.getD_eq_default]
  simp; omega

/-- Restates the scan characterisation through `get`. -/
theorem size_eq_iff {T : Type} [Zero T] [DecidableEq T] {N : Nat}
    {x : literal_t T N} {k : Nat} :
    size x = k ↔ k ≤ N ∧ (∀ i, i < k → get x i ≠ 0) ∧ (k < N → get x k = 0) :=
  scanSize_eq_iff x._data N k

theorem size_le {T : Type} [Zero T] [DecidableEq T] {N : Nat}
    (x : literal_t T N) : size x ≤ N :=
  (size_eq_iff.mp rfl).1

theorem get_of_lt_size {T : Type} [Zero T] [DecidableEq T] {N : Nat}
    {x : literal_t T N} {i : Nat} (h : i < size x) : get x i ≠ 0 :=
  (size_eq_iff.mp rfl).2.1 i h

theorem get_size_of_lt {T : Type} [Zero T] [DecidableEq T] {N : Nat}
    {x : literal_t T N} (h : size x < N) : get x (size x) = 0 :=
  (size_eq_iff.mp rfl).2.2 h

theorem length_data {T : Type} {N : Nat} (x : literal_t T N) :
    x._data.length = N + 1 := x.hlen

theorem empty_iff_size_eq_zero {T : Type} [Zero T] [DecidableEq T] {N : Nat}
    (hN : 0 < N) (x : literal_t T N) : empty x = true ↔ size x = 0 := by
  rw [empty, if_pos hN, size_eq_iff]
  simp only [decide_eq_true_eq]
  constructor
  · intro h; exact ⟨Nat.zero_le _, by omega, fun _ => h⟩
  · rintro ⟨_, _, h3⟩; exact h3 hN

/-- Models the defaulted constructor `literal_t()` (Literal.hpp:161):
value-initialised storage, every slot default. -/
def lit_default {T : Type} [Zero T] {N : Nat} : literal_t T N :=
  mk_fn N (fun _ => 0)

/-- Models the scalar constructor `literal_t(const value_type&)`
(Literal.hpp:163-165): slot `0` receives the element, the rest stay default. -/
def ofScalar {T : Type} [Zero T] {N : Nat} (c : T) : literal_t T N :=
  mk_fn N (fun i => if i = 0 then c else 0)

/-- Models the array constructor `literal_t(const value_type(&)[M])` with
`M ≤ N + 1` (Literal.hpp:174-178): copies the whole source array over the
value-initialised storage (note: no re-termination is performed). -/
def ofArray {T : Type} [Zero T] {N : Nat} (arr : List T) : literal_t T N :=
  mk_fn N (fun i => if i < arr.length then arr.getD i 0 else 0)

/-- Models `operator =(const value_type(&)[N])` (Literal.hpp:180-184):
overwrites slots `0..N-1` with the array, leaving the last slot untouched. -/
def assignArray {T : Type} [Zero T] {N : Nat} (x : literal_t T N)
    (arr : List T) : literal_t T N :=
  mk_fn N (fun i => if i < N then arr.getD i 0 else get x i)

/-- Models the widening copy constructor `literal_t(const literal_t<T, M>&)`
with `M ≤ N` (Literal.hpp:167-172): copies slots `0..M-1`, writes the default
at slot `M`, and leaves the remaining value-initialised slots default.
(The source declares the parameter as `literal_t<char, M>`; for the same
element type, which is the shape every in-repo caller instantiates, this is
its exact behaviour.) -/
def widen {T : Type} [Zero T] {M : Nat} (N : Nat) (x : literal_t T M) :
    literal_t T N :=
  mk_fn N (fun i => if i < M then get x i else 0)

/-- Common loop of both `operator +=` overloads (Literal.hpp:512-529): write
the source slots starting at the current logical end `size x`, stopping once
either the source is exhausted or slot `N - 1` (the last capacity slot) has
been written; slots outside the written window keep their old contents. -/
def appendRaw {T : Type} [Zero T] [DecidableEq T] {N : Nat}
    (x : literal_t T N) (src : List T) : literal_t T N :=
  mk_fn N (fun i =>
    if size x ≤ i ∧ i < size x + min (N - size x) src.length
    then src.getD (i - size x) 0
    else get x i)

/-- Models `operator += (const CT::LiteralString auto&)` (Literal.hpp:512-519):
the source window is the other literal's storage from slot `0` up to and
including its terminator slot at `size rhs`. -/
def append_str {T : Type} [Zero T] [DecidableEq T] {N M : Nat}
    (x : literal_t T N) (rhs : literal_t T M) : literal_t T N :=
  appendRaw x (rhs._data.take (size rhs + 1))

/-- Models `operator += (const C(&)[M])` (Literal.hpp:521-529): the source
window is the entire raw array. -/
def append_arr {T : Type} [Zero T] [DecidableEq T] {N : Nat}
    (x : literal_t T N) (src : List T) : literal_t T N :=
  appendRaw x src

/-- Models `operator + (const LHS&, const RHS&)` for two literal strings
(Literal.hpp:683-688): widen the left operand into a fresh instance of
capacity `bit_ceil (N1 + N2)` (`Resized<ArraySize + ArraySize>`), then apply
the truncating append. -/
def concat {T : Type} [Zero T] [DecidableEq T] {N1 N2 : Nat}
    (a : literal_t T N1) (b : literal_t T N2) :
    literal_t T (bit_ceil (N1 + N2)) :=
  append_str (widen (bit_ceil (N1 + N2)) a) b

/-- Models `literal_t::substr` (Literal.hpp:318-331): a fresh value-initialised
instance; when `pos` is within the populated range, `count` is clamped to the
remaining content, that window is copied to the front and re-terminated. -/
def substr {T : Type} [Zero T] [DecidableEq T] {N : Nat} (x : literal_t T N)
    (pos count : Nat) : literal_t T N :=
  if size x ≤ pos then lit_default
  else mk_fn N (fun i =>
    if i < min count (size x - pos) then get x (pos + i) else 0)

/-- Models `operator []` for a string shape under `LANGULUS_OPTION_SAFE_MODE`
(Literal.hpp:252-264): an index at or beyond `size()` throws
`std::range_error`, otherwise the slot is returned.  The embedding is pure, so
the receiver is untouched by construction in either outcome. -/
def subscript_safe {T : Type} [Zero T] [DecidableEq T] {N : Nat}
    (x : literal_t T N) (n : Nat) : Except String T :=
  if size x ≤ n then Except.error "subscript index outside literal_t limits"
  else Except.ok (get x n)

/-- Models `operator []` for a string shape in the default configuration
(Literal.hpp:252-264 with safe mode off): unchecked slot read, no test fires. -/
def subscript_fast {T : Type} [Zero T] {N : Nat} (x : literal_t T N)
    (n : Nat) : T :=
  get x n

/-- Models `Langulus::Unsupported` (Literal.hpp:53), the sentinel element type
of undefined literals.  It supports no comparison in C++; its only value is
the default one. -/
inductive Unsupported : Type where
  | mk : Unsupported
deriving DecidableEq

instance : Zero Unsupported := ⟨Unsupported.mk⟩

/-- Models the defaulted deduction guide `literal_t() -> literal_t<Unsupported, 0>`
(Literal.hpp:532-533): a default-constructed instance is of the
Undefined category (capacity `0`, sentinel element type). -/
def default_ctad : literal_t Unsupported 0 := lit_default

/-- Models the string/string branch of `operator ==` (Literal.hpp:547-557)
for operands sharing an element type: equal sizes and element-wise equal
content. -/
def beq_str_str {T : Type} [Zero T] [DecidableEq T] {N1 N2 : Nat}
    (a : literal_t T N1) (b : literal_t T N2) : Bool :=
  size a == size b &&
    (List.range (size a)).all (fun i => decide (get a i = get b i))

/-- Models the string-vs-undefined branch of `operator ==`
(Literal.hpp:558-561): the result is `lhs.empty()`, the undefined operand is
ignored. -/
def beq_str_undef {T : Type} [Zero T] [DecidableEq T] {N : Nat}
    (lhs : literal_t T N) (_rhs : literal_t Unsupported 0) : Bool :=
  empty lhs

/-- Models the undefined-vs-string branch of `operator ==`
(Literal.hpp:567-570): the result is `rhs.empty()`, the undefined operand is
ignored. -/
def beq_undef_str {T : Type} [Zero T] [DecidableEq T] {N : Nat}
    (_lhs : literal_t Unsupported 0) (rhs : literal_t T N) : Bool :=
  empty rhs

/-- Models the string-vs-value branches of `operator ==`
(Literal.hpp:562-566).  The `eqv` parameter carries the compile-time fact
`std::equality_comparable_with<T1, T2>`: `some f` when the element types
compare with `f`, `none` when they do not (then the branch is constant
`false`). -/
def beq_str_val {T1 T2 : Type} [Zero T1] [DecidableEq T1] [Zero T2]
    [DecidableEq T2] {N : Nat} (eqv : Option (T1 → T2 → Bool)) (a : literal_t T1 N)
    (v : literal_t T2 0) : Bool :=
  match eqv with
  | some f => (empty a && empty v) || (size a == 1 && f (get a 0) (get v 0))
  | none => false

/-- Models the branches of `operator ==` where both operands have `N == 0`
(Literal.hpp:576-584).  `eqv` is as in `beq_str_val`; `undef1`/`undef2` carry
the compile-time facts `CT::LiteralUndefined<LHS>`/`...<RHS>` (the element
type is the `Unsupported` sentinel).  Comparable element types compare slot
`0`; otherwise the operands are equal exactly when both are undefined.
`Unsupported` is not equality-comparable with anything, so every
instantiation with an undefined operand takes the `none` arm. -/
def beq_val_val {T1 T2 : Type} [Zero T1] [Zero T2]
    (eqv : Option (T1 → T2 → Bool)) (undef1 undef2 : Bool)
    (a : literal_t T1 0) (b : literal_t T2 0) : Bool :=
  match eqv with
  | some f => f (get a 0) (get b 0)
  | none => undef1 && undef2

/-- Models the view projection `operator view_type` (Literal.hpp:312-315):
the populated content `{data(), size()}` of a string shape. -/
def content {T : Type} [Zero T] [DecidableEq T] {N : Nat}
    (x : literal_t T N) : List T :=
  x._data.take (size x)

/-- Substring match test at offset `i`, as used by `std::basic_string_view`
searches: the pattern `v` fits inside `s` at `i` and agrees element-wise. -/
def matchesAt {T : Type} [Zero T] [DecidableEq T] (s v : List T)
    (i : Nat) : Bool :=
  i + v.length ≤ s.length &&
    (List.range v.length).all (fun j => decide (s.getD (i + j) 0 = v.getD j 0))

/-- Models `std::basic_string_view::find(view, pos)`: the lowest offset at or
after `pos` where the pattern matches, else `npos`. -/
def view_find {T : Type} [Zero T] [DecidableEq T] (s v : List T)
    (pos : Nat) : Nat :=
  ((List.range (s.length + 1)).find? (fun i => pos ≤ i && matchesAt s v i)).getD npos

/-- Models `std::basic_string_view::rfind(view, pos)`: the highest offset at
or before `pos` where the pattern matches, else `npos`. -/
def view_rfind {T : Type} [Zero T] [DecidableEq T] (s v : List T)
    (pos : Nat) : Nat :=
  ((List.range (s.length + 1)).reverse.find?
    (fun i => i ≤ pos && matchesAt s v i)).getD npos

/-- Models `std::basic_string_view::find_first_of(view, pos)`. -/
def view_find_first_of {T : Type} [Zero T] [DecidableEq T] (s v : List T)
    (pos : Nat) : Nat :=
  ((List.range s.length).find?
    (fun i => pos ≤ i && v.any (fun c => decide (c = s.getD i 0)))).getD npos

/-- Models `std::basic_string_view::find_last_of(view, pos)`. -/
def view_find_last_of {T : Type} [Zero T] [DecidableEq T] (s v : List T)
    (pos : Nat) : Nat :=
  ((List.range s.length).reverse.find?
    (fun i => i ≤ pos && v.any (fun c => decide (c = s.getD i 0)))).getD npos

/-- Models `std::basic_string_view::find_first_not_of(view, pos)`. -/
def view_find_first_not_of {T : Type} [Zero T] [DecidableEq T] (s v : List T)
    (pos : Nat) : Nat :=
  ((List.range s.length).find?
    (fun i => pos ≤ i && !v.any (fun c => decide (c = s.getD i 0)))).getD npos

/-- Models `std::basic_string_view::find_last_not_of(view, pos)`. -/
def view_find_last_not_of {T : Type} [Zero T] [DecidableEq T] (s v : List T)
    (pos : Nat) : Nat :=
  ((List.range s.length).reverse.find?
    (fun i => i ≤ pos && !v.any (fun c => decide (c = s.getD i 0)))).getD npos

/-- Models the `Resized<M>` overload of `find` (Literal.hpp:334-339): a
compile-time short-circuit answers `npos` whenever `M > N`, otherwise the
search is delegated to the view projections. -/
def find_str {T : Type} [Zero T] [DecidableEq T] {N : Nat}
    (x : literal_t T N) (M : Nat) (str : literal_t T (bit_ceil M))
    (pos : Nat) : Nat :=
  if N < M then npos else view_find (content x) (content str) pos

/-- Models the `Resized<M>` overload of `rfind` (Literal.hpp:354-359). -/
def rfind_str {T : Type} [Zero T] [DecidableEq T] {N : Nat}
    (x : literal_t T N) (M : Nat) (str : literal_t T (bit_ceil M))
    (pos : Nat) : Nat :=
  if N < M then npos else view_rfind (content x) (content str) pos

/-- Models the `Resized<M>` overload of `find_first_of` (Literal.hpp:374-379). -/
def find_first_of_str {T : Type} [Zero T] [DecidableEq T] {N : Nat}
    (x : literal_t T N) (M : Nat) (str : literal_t T (bit_ceil M))
    (pos : Nat) : Nat :=
  if N < M then npos else view_find_first_of (content x) (content str) pos

/-- Models the `Resized<M>` overload of `find_last_of` (Literal.hpp:394-399). -/
def find_last_of_str {T : Type} [Zero T] [DecidableEq T] {N : Nat}
    (x : literal_t T N) (M : Nat) (str : literal_t T (bit_ceil M))
    (pos : Nat) : Nat :=
  if N < M then npos else view_find_last_of (content x) (content str) pos

/-- Models the `Resized<M>` overload of `find_first_not_of`
(Literal.hpp:414-419). -/
def find_first_not_of_str {T : Type} [Zero T] [DecidableEq T] {N : Nat}
    (x : literal_t T N) (M : Nat) (str : literal_t T (bit_ceil M))
    (pos : Nat) : Nat :=
  if N < M then npos else view_find_first_not_of (content x) (content str) pos

/-- Models the `Resized<M>` overload of `find_last_not_of`
(Literal.hpp:434-439). -/
def find_last_not_of_str {T : Type} [Zero T] [DecidableEq T] {N : Nat}
    (x : literal_t T N) (M : Nat) (str : literal_t T (bit_ceil M))
    (pos : Nat) : Nat :=
  if N < M then npos else view_find_last_not_of (content x) (content str) pos

theorem getD_take {T : Type} [Zero T] {l : List T} {n i : Nat} (h : i < n) :
    (l.take n).getD i 0 = l.getD i 0 := by
  by_cases hl : i < l.length
  · have h1 : i < (l.take n).length := by simp; omega
    rw [List.getD_eq_getElem _ _ h1, List.getD_eq_getElem _ _ hl]
    exact List.getElem_take ..
  · push_neg at hl
    rw [List.getD_eq_default _ _ (by simp; omega), List.getD_eq_default _ _ hl]

theorem get_lit_default {T : Type} [Zero T] {N : Nat} (i : Nat) :
    get (lit_default : literal_t T N) i = 0 := by
  by_cases h : i ≤ N
  · rw [lit_default, get_mk_fn _ h]
  · rw [lit_default, get_mk_fn_ge _ (by omega)]

theorem size_lit_default {T : Type} [Zero T] [DecidableEq T] {N : Nat} :
    size (lit_default : literal_t T N) = 0 := by
  rw [size_eq_iff]
  exact ⟨Nat.zero_le _, by omega, fun _ => get_lit_default 0⟩

theorem size_widen {T : Type} [Zero T] [DecidableEq T] {M : Nat} (N : Nat)
    (x : literal_t T M) (h : M ≤ N) : size (widen N x) = size x := by
  have hs := size_le x
  rw [size_eq_iff]
  refine ⟨by omega, ?_, ?_⟩
  · intro i hi
    rw [widen, get_mk_fn _ (by omega), if_pos (by omega)]
    exact get_of_lt_size hi
  · intro _
    rw [widen, get_mk_fn _ (by omega)]
    by_cases hM : size x < M
    · rw [if_pos hM]
      exact get_size_of_lt hM
    · rw [if_neg hM]

theorem get_appendRaw {T : Type} [Zero T] [DecidableEq T] {N : Nat}
    (x : literal_t T N) (src : List T) {i : Nat} (h : i ≤ N) :
    get (appendRaw x src) i =
      if size x ≤ i ∧ i < size x + min (N - size x) src.length
      then src.getD (i - size x) 0
      else get x i := by
  rw [appendRaw, get_mk_fn _ h]

theorem take_term_length {T : Type} [Zero T] [DecidableEq T] {M : Nat}
    (rhs : literal_t T M) :
    (rhs._data.take (size rhs + 1)).length = size rhs + 1 := by
  have h1 := size_le rhs
  have h2 := length_data rhs
  simp only [List.length_take]
  omega

theorem get_append_str {T : Type} [Zero T] [DecidableEq T] {N M : Nat}
    (x : literal_t T N) (rhs : literal_t T M) {i : Nat} (h : i ≤ N) :
    get (append_str x rhs) i =
      if size x ≤ i ∧ i < size x + min (N - size x) (size rhs + 1)
      then get rhs (i - size x)
      else get x i := by
  rw [append_str, get_appendRaw _ _ h, take_term_length]
  by_cases hc : size x ≤ i ∧ i < size x + min (N - size x) (size rhs + 1)
  · rw [if_pos hc, if_pos hc]
    exact getD_take (by omega)
  · rw [if_neg hc, if_neg hc]

theorem size_appendRaw_trunc {T : Type} [Zero T] [DecidableEq T] {N : Nat}
    (x : literal_t T N) (src : List T) (hover : N - size x < src.length)
    (hnz : ∀ j, j < N - size x → src.getD j 0 ≠ 0) :
    size (appendRaw x src) = N := by
  have hs := size_le x
  have hmin : min (N - size x) src.length = N - size x := by omega
  rw [size_eq_iff]
  refine ⟨Nat.le_refl _, ?_, by omega⟩
  intro i hi
  rw [get_appendRaw _ _ (by omega), hmin]
  by_cases hc : size x ≤ i
  · rw [if_pos ⟨hc, by omega⟩]
    exact hnz (i - size x) (by omega)
  · rw [if_neg (fun hh => hc hh.1)]
    exact get_of_lt_size (by omega)

theorem size_append_str {T : Type} [Zero T] [DecidableEq T] {N M : Nat}
    (x : literal_t T N) (rhs : literal_t T M)
    (hterm : get rhs (size rhs) = 0)
    (hroom : size x + size rhs ≤ N) :
    size (append_str x rhs) = size x + size rhs := by
  have hsx := size_le x
  have hsr := size_le rhs
  rw [size_eq_iff]
  refine ⟨hroom, ?_, ?_⟩
  · intro i hi
    rw [get_append_str _ _ (by omega)]
    by_cases hc : size x ≤ i
    · rw [if_pos ⟨hc, by omega⟩]
      exact get_of_lt_size (x := rhs) (by omega)
    · rw [if_neg (fun hh => hc hh.1)]
      exact get_of_lt_size (by omega)
  · intro hlt
    rw [get_append_str _ _ (by omega), if_pos ⟨by omega, by omega⟩]
    have hsub : size x + size rhs - size x = size rhs := by omega
    rw [hsub]
    exact hterm

theorem size_append_str_trunc {T : Type} [Zero T] [DecidableEq T] {N M : Nat}
    (x : literal_t T N) (rhs : literal_t T M)
    (hover : N - size x < size rhs) :
    size (append_str x rhs) = N := by
  rw [append_str]
  refine size_appendRaw_trunc x _ (by rw [take_term_length]; omega) ?_
  intro j hj
  rw [getD_take (by omega)]
  exact get_of_lt_size (x := rhs) (by omega)

/-- C1 (counterexample): the claim states the capacity-bucketing function maps
`M = 0` to `0`; the code's `std::bit_ceil` (used by `literal_t::Resized` and
the array deduction guide) maps `0` to `1`. -/
theorem C1_counterexample : bit_ceil 0 = 1 ∧ bit_ceil 0 ≠ 0 := by decide

/-- C1 (amended): the capacity-bucketing function maps a source length `M` to
the smallest power of two greater than or equal to `M` for `M ≥ 1`, and maps
`0` to `1` (the `std::bit_ceil` convention); in particular `Resize(0)=1`,
`Resize(1)=1`, `Resize(2)=2`, `Resize(3)=4`, `Resize(5)=8`. -/
theorem C1_resized_bucketing :
    bit_ceil 0 = 1 ∧ bit_ceil 1 = 1 ∧ bit_ceil 2 = 2 ∧ bit_ceil 3 = 4 ∧
    bit_ceil 5 = 8 ∧
    ∀ M : Nat, 1 ≤ M →
      M ≤ bit_ceil M ∧ (∃ j, bit_ceil M = 2 ^ j) ∧
      ∀ k, M ≤ 2 ^ k → bit_ceil M ≤ 2 ^ k := by
  refine ⟨by decide, by decide, by decide, by decide, by decide, ?_⟩
  intro M _
  obtain ⟨k, hk, _, _⟩ := bit_ceil_spec M
  exact ⟨le_bit_ceil M, ⟨k, hk⟩, fun j hj => bit_ceil_le_pow hj⟩

/-- C1 (witness): the amended bucketing facts evaluated at `M = 5`. -/
theorem C1_witness :
    5 ≤ bit_ceil 5 ∧ (∃ j, bit_ceil 5 = 2 ^ j) ∧
    ∀ k, 5 ≤ 2 ^ k → bit_ceil 5 ≤ 2 ^ k :=
  C1_resized_bucketing.2.2.2.2.2 5 (by decide)

/-- C2 (counterexample): concatenation does not always give
`size (a + b) = size a + size b` when the sum fits the bucketed capacity.
The right operand `ofArray [2, 2, 3] : literal_t Nat 2` is built by the public
array constructor (`M = 3 ≤ N + 1`), has `size` 2 and a non-default value in
its terminator slot; the append loop copies that slot too, so the result has
size 4 instead of 3. -/
theorem C2_counterexample :
    size (ofArray ([1, 0] : List Nat) : literal_t Nat 1) +
        size (ofArray ([2, 2, 3] : List Nat) : literal_t Nat 2) ≤
      bit_ceil (1 + 2) ∧
    size (concat (ofArray ([1, 0] : List Nat) : literal_t Nat 1)
        (ofArray ([2, 2, 3] : List Nat) : literal_t Nat 2)) ≠
      size (ofArray ([1, 0] : List Nat) : literal_t Nat 1) +
        size (ofArray ([2, 2, 3] : List Nat) : literal_t Nat 2) := by decide

/-- C2 (amended): for String-category operands `a`, `b` where `b` satisfies
the terminator invariant `storage[size()] == 0` (every string built from
terminated sources does; only a full-length unterminated array constructor
call violates it), `a + b` produces an instance of bucketed capacity
`bit_ceil (N1 + N2)`, never exceeds that capacity, never fails (it is total),
and `size (a + b) = size a + size b` whenever that sum is at most the
bucketed capacity. -/
theorem C2_concat_size {T : Type} [Zero T] [DecidableEq T] {N1 N2 : Nat}
    (a : literal_t T N1) (b : literal_t T N2)
    (h1 : 0 < N1) (h2 : 0 < N2)
    (hterm : get b (size b) = 0) :
    (concat a b)._data.length = bit_ceil (N1 + N2) + 1 ∧
    size (concat a b) ≤ bit_ceil (N1 + N2) ∧
    (size a + size b ≤ bit_ceil (N1 + N2) →
      size (concat a b) = size a + size b) := by
  have hle : N1 ≤ bit_ceil (N1 + N2) :=
    le_trans (by omega) (le_bit_ceil (N1 + N2))
  refine ⟨length_data _, size_le _, fun hroom => ?_⟩
  rw [concat,
    size_append_str _ _ hterm (by rw [size_widen _ _ hle]; omega),
    size_widen _ _ hle]

/-- C2 (witness): the amended concatenation facts evaluated on two concrete
singleton strings of capacity 1. -/
theorem C2_witness :
    (concat (ofArray ([1, 0] : List Nat) : literal_t Nat 1)
        (ofArray ([2, 0] : List Nat) : literal_t Nat 1))._data.length =
      bit_ceil (1 + 1) + 1 ∧
    size (concat (ofArray ([1, 0] : List Nat) : literal_t Nat 1)
        (ofArray ([2, 0] : List Nat) : literal_t Nat 1)) ≤ bit_ceil (1 + 1) ∧
    (size (ofArray ([1, 0] : List Nat) : literal_t Nat 1) +
        size (ofArray ([2, 0] : List Nat) : literal_t Nat 1) ≤
      bit_ceil (1 + 1) →
      size (concat (ofArray ([1, 0] : List Nat) : literal_t Nat 1)
          (ofArray ([2, 0] : List Nat) : literal_t Nat 1)) =
        size (ofArray ([1, 0] : List Nat) : literal_t Nat 1) +
          size (ofArray ([2, 0] : List Nat) : literal_t Nat 1)) :=
  C2_concat_size (ofArray [1, 0]) (ofArray [2, 0])
    (by decide) (by decide) (by decide)

/-- C3 (counterexample): for a raw-array source longer than the remaining
capacity, the claim asserts the resulting `size()` equals the capacity; when
the copied window contains a default element that is false.  Receiver of
capacity 2 with size 1, raw source `[0, 5, 5]` of length 3: one slot is
copied but it is `0`, so the resulting size stays 1, not 2. -/
theorem C3_counterexample :
    2 - size (ofArray ([1, 0] : List Nat) : literal_t Nat 2) <
      ([0, 5, 5] : List Nat).length ∧
    size (append_arr (ofArray ([1, 0] : List Nat) : literal_t Nat 2)
      ([0, 5, 5] : List Nat)) ≠ 2 := by decide

/-- C3 (amended): the truncating append `+=` copies source elements starting
at the receiver's current logical end, stops when either all source elements
are consumed (for a String source this includes its terminator slot) or the
receiver's last capacity slot is written, and leaves every other slot
unchanged; it never reallocates (the storage length stays `N + 1`).  When the
source is longer than the remaining capacity it copies exactly
`capacity - size` elements and drops the rest; the resulting `size()` then
equals the capacity for every String-category source, and for a raw-array
source whenever the copied window holds no default element. -/
theorem C3_append_truncation {T : Type} [Zero T] [DecidableEq T] {N M : Nat}
    (hN : 0 < N) (x : literal_t T N) (rhs : literal_t T M) (src : List T) :
    ((∀ i, i < size x → get (append_str x rhs) i = get x i) ∧
     (∀ j, j < min (N - size x) (size rhs + 1) →
        get (append_str x rhs) (size x + j) = get rhs j) ∧
     (∀ i, size x + min (N - size x) (size rhs + 1) ≤ i → i ≤ N →
        get (append_str x rhs) i = get x i) ∧
     (append_str x rhs)._data.length = N + 1 ∧
     (N - size x < size rhs →
        min (N - size x) (size rhs + 1) = N - size x ∧
        size (append_str x rhs) = N)) ∧
    ((∀ i, i < size x → get (append_arr x src) i = get x i) ∧
     (∀ j, j < min (N - size x) src.length →
        get (append_arr x src) (size x + j) = src.getD j 0) ∧
     (∀ i, size x + min (N - size x) src.length ≤ i → i ≤ N →
        get (append_arr x src) i = get x i) ∧
     (append_arr x src)._data.length = N + 1 ∧
     (N - size x < src.length →
        min (N - size x) src.length = N - size x) ∧
     (N - size x < src.length → (∀ j, j < N - size x → src.getD j 0 ≠ 0) →
        size (append_arr x src) = N)) := by
  have hsx := size_le x
  have hsr := size_le rhs
  refine ⟨⟨?_, ?_, ?_, length_data _, ?_⟩, ?_, ?_, ?_, length_data _, ?_, ?_⟩
  · intro i hi
    rw [get_append_str _ _ (by omega), if_neg (fun hh => by omega)]
  · intro j hj
    rw [get_append_str _ _ (by omega), if_pos ⟨by omega, by omega⟩]
    have hsub : size x + j - size x = j := by omega
    rw [hsub]
  · intro i h1 h2
    rw [get_append_str _ _ h2, if_neg (fun hh => by omega)]
  · intro hover
    exact ⟨by omega, size_append_str_trunc x rhs hover⟩
  · intro i hi
    rw [append_arr, get_appendRaw _ _ (by omega),
      if_neg (fun hh => by omega)]
  · intro j hj
    rw [append_arr, get_appendRaw _ _ (by omega), if_pos ⟨by omega, by omega⟩]
    have hsub : size x + j - size x = j := by omega
    rw [hsub]
  · intro i h1 h2
    rw [append_arr, get_appendRaw _ _ h2, if_neg (fun hh => by omega)]
  · intro hover
    omega
  · intro hover hnz
    rw [append_arr]
    exact size_appendRaw_trunc x src hover hnz

/-- C3 (witness): the truncating-append facts evaluated on a capacity-2
receiver of size 1 and a String source of size 2: exactly one element is
copied and the result is full. -/
theorem C3_witness :
    min (2 - size (ofArray ([1, 0] : List Nat) : literal_t Nat 2))
        (size (ofArray ([2, 2, 0] : List Nat) : literal_t Nat 2) + 1) =
      2 - size (ofArray ([1, 0] : List Nat) : literal_t Nat 2) ∧
    size (append_str (ofArray ([1, 0] : List Nat) : literal_t Nat 2)
      (ofArray ([2, 2, 0] : List Nat) : literal_t Nat 2)) = 2 :=
  (C3_append_truncation (by decide) (ofArray [1, 0]) (ofArray [2, 2, 0])
    ([] : List Nat)).1.2.2.2.2 (by decide)

/-- C4: a default-constructed instance is of the Undefined category (the
defaulted deduction guide yields `literal_t<Unsupported, 0>`, our
`default_ctad`); via `operator ==` it equals a String of any element type
exactly when that string is empty (both orders), it never equals a Value
(both orders), Undefined always equals Undefined, and Value never equals
Undefined.  The `N == 0` comparisons take the incomparable arm because
`Unsupported` is not equality-comparable with any type. -/
theorem C4_undefined_equality :
    (∀ (T2 : Type) [Zero T2] [DecidableEq T2] (N2 : Nat)
        (b : literal_t T2 N2), 0 < N2 →
        (beq_undef_str default_ctad b = true ↔ size b = 0) ∧
        (beq_str_undef b default_ctad = true ↔ size b = 0)) ∧
    (∀ (T2 : Type) [Zero T2] (v : literal_t T2 0),
        beq_val_val none true false default_ctad v = false ∧
        beq_val_val none false true v default_ctad = false) ∧
    (∀ a b : literal_t Unsupported 0, beq_val_val none true true a b = true) ∧
    (∀ (T1 : Type) [Zero T1] (v : literal_t T1 0)
        (u : literal_t Unsupported 0),
        beq_val_val none false true v u = false) := by
  refine ⟨?_, ?_, ?_, ?_⟩
  · intro T2 i1 i2 N2 b hN2
    exact ⟨empty_iff_size_eq_zero hN2 b, empty_iff_size_eq_zero hN2 b⟩
  · intro T2 i1 v
    exact ⟨rfl, rfl⟩
  · intro a b
    rfl
  · intro T1 i1 v u
    rfl

/-- C4 (witness): the Undefined-vs-String equivalences evaluated against the
empty capacity-1 string over `Nat` elements. -/
theorem C4_witness :
    (beq_undef_str default_ctad (lit_default : literal_t Nat 1) = true ↔
      size (lit_default : literal_t Nat 1) = 0) ∧
    (beq_str_undef (lit_default : literal_t Nat 1) default_ctad = true ↔
      size (lit_default : literal_t Nat 1) = 0) :=
  C4_undefined_equality.1 Nat 1 lit_default (by decide)

/-- C5: for a String `s` and a Value `v` with equality-comparable element
types (the comparison carried as `f`), `s == v` holds exactly when both are
empty or `s` holds exactly one element equal to `v`'s stored element; with
incomparable element types `s == v` is `false`.  A Value's `empty()` is
identically `true` (Literal.hpp:237-242), so "both are empty" reduces to the
string being empty. -/
theorem C5_string_value_equality {T1 T2 : Type} [Zero T1] [DecidableEq T1]
    [Zero T2] [DecidableEq T2] {N : Nat} (hN : 0 < N)
    (a : literal_t T1 N) (v : literal_t T2 0) (f : T1 → T2 → Bool) :
    empty v = true ∧
    (beq_str_val (some f) a v = true ↔
      size a = 0 ∨ (size a = 1 ∧ f (get a 0) (get v 0) = true)) ∧
    beq_str_val (none : Option (T1 → T2 → Bool)) a v = false := by
  have hv : empty v = true := by simp [empty]
  refine ⟨hv, ?_, rfl⟩
  rw [beq_str_val]
  simp only [hv, Bool.and_true, Bool.or_eq_true, Bool.and_eq_true,
    beq_iff_eq, empty_iff_size_eq_zero hN]

/-- C5 (witness): the String-vs-Value equivalence evaluated for the
singleton string `[7]` against the value `7` over `Nat` elements. -/
theorem C5_witness :
    empty (ofScalar (7 : Nat) : literal_t Nat 0) = true ∧
    (beq_str_val (some fun u w => decide (u = w))
        (ofArray ([7, 0] : List Nat) : literal_t Nat 1)
        (ofScalar (7 : Nat) : literal_t Nat 0) = true ↔
      size (ofArray ([7, 0] : List Nat) : literal_t Nat 1) = 0 ∨
        (size (ofArray ([7, 0] : List Nat) : literal_t Nat 1) = 1 ∧
         decide (get (ofArray ([7, 0] : List Nat) : literal_t Nat 1) 0 =
           get (ofScalar (7 : Nat) : literal_t Nat 0) 0) = true)) ∧
    beq_str_val (none : Option (Nat → Nat → Bool))
      (ofArray ([7, 0] : List Nat) : literal_t Nat 1)
      (ofScalar (7 : Nat) : literal_t Nat 0) = false :=
  C5_string_value_equality (by decide) (ofArray [7, 0]) (ofScalar 7)
    (fun u w => decide (u = w))

/-- C6: every `Resized<M>` find-family overload on a String receiver of
capacity `N` (a power of two, per the `literal_t` static assertion) reports
`npos` immediately whenever the operand capacity `bit_ceil M` exceeds `N`,
regardless of either operand's content: `bit_ceil M > N` forces `M > N`, so
the compile-time short-circuit fires before any view search runs. -/
theorem C6_find_capacity_short_circuit {T : Type} [Zero T] [DecidableEq T]
    {N M : Nat} (hpow : ∃ k, N = 2 ^ k) (hcap : N < bit_ceil M)
    (x : literal_t T N) (str : literal_t T (bit_ceil M)) (pos : Nat) :
    find_str x M str pos = npos ∧
    rfind_str x M str pos = npos ∧
    find_first_of_str x M str pos = npos ∧
    find_last_of_str x M str pos = npos ∧
    find_first_not_of_str x M str pos = npos ∧
    find_last_not_of_str x M str pos = npos := by
  obtain ⟨k, rfl⟩ := hpow
  have hMN : 2 ^ k < M := by
    by_contra hle
    push_neg at hle
    exact absurd (bit_ceil_le_pow hle) (by omega)
  exact ⟨by rw [find_str, if_pos hMN], by rw [rfind_str, if_pos hMN],
    by rw [find_first_of_str, if_pos hMN],
    by rw [find_last_of_str, if_pos hMN],
    by rw [find_first_not_of_str, if_pos hMN],
    by rw [find_last_not_of_str, if_pos hMN]⟩

/-- C6 (witness): the short-circuit evaluated on a capacity-2 receiver
holding `[1, 1]` and a capacity-4 (`bit_ceil 3`) operand holding `[1]` —
content that a real search would find, yet every operation answers `npos`. -/
theorem C6_witness :
    find_str (ofArray ([1, 1, 0] : List Nat) : literal_t Nat 2) 3
      (ofArray ([1, 0] : List Nat) : literal_t Nat (bit_ceil 3)) 0 = npos ∧
    rfind_str (ofArray ([1, 1, 0] : List Nat) : literal_t Nat 2) 3
      (ofArray ([1, 0] : List Nat) : literal_t Nat (bit_ceil 3)) 0 = npos ∧
    find_first_of_str (ofArray ([1, 1, 0] : List Nat) : literal_t Nat 2) 3
      (ofArray ([1, 0] : List Nat) : literal_t Nat (bit_ceil 3)) 0 = npos ∧
    find_last_of_str (ofArray ([1, 1, 0] : List Nat) : literal_t Nat 2) 3
      (ofArray ([1, 0] : List Nat) : literal_t Nat (bit_ceil 3)) 0 = npos ∧
    find_first_not_of_str (ofArray ([1, 1, 0] : List Nat) : literal_t Nat 2) 3
      (ofArray ([1, 0] : List Nat) : literal_t Nat (bit_ceil 3)) 0 = npos ∧
    find_last_not_of_str (ofArray ([1, 1, 0] : List Nat) : literal_t Nat 2) 3
      (ofArray ([1, 0] : List Nat) : literal_t Nat (bit_ceil 3)) 0 = npos :=
  C6_find_capacity_short_circuit ⟨1, rfl⟩ (by decide)
    (ofArray [1, 1, 0]) (ofArray [1, 0]) 0

/-- C7 (counterexample): the invariant `storage[size()] == default` is not
preserved by every public operation: the array constructor with a full-length
(`M = N + 1`) source whose last element is non-default leaves a non-default
value in the slot at `size()`.  Here `literal_t<Nat, 2>` built from
`[1, 1, 1]` (a legal `M = 3 ≤ N + 1` call) has `size() = 2` and slot 2
holding `1`. -/
theorem C7_counterexample :
    ([1, 1, 1] : List Nat).length ≤ 2 + 1 ∧
    get (ofArray ([1, 1, 1] : List Nat) : literal_t Nat 2)
      (size (ofArray ([1, 1, 1] : List Nat) : literal_t Nat 2)) ≠ 0 := by decide

/-- C7 (amended): for a String shape (`N > 0`), `0 ≤ size() ≤ N` always
holds, and the invariant `storage[size()] == default` holds in every instance
whose last storage slot is default.  That last-slot condition is established
by default, scalar and widening construction and by `substr`, by array
construction whenever the source array has length at most `N` or ends in the
default value, and it is preserved by array assignment and by both truncating
appends — the sole exception is array construction from a full-length
(`N + 1`) source ending in a non-default element. -/
theorem C7_invariant_preservation {T : Type} [Zero T] [DecidableEq T]
    {N : Nat} (hN : 0 < N) :
    (∀ x : literal_t T N, size x ≤ N) ∧
    (∀ x : literal_t T N, get x N = 0 → get x (size x) = 0) ∧
    get (lit_default : literal_t T N) N = 0 ∧
    (∀ c : T, get (ofScalar c : literal_t T N) N = 0) ∧
    (∀ (M : Nat) (y : literal_t T M), M ≤ N → get (widen N y) N = 0) ∧
    (∀ arr : List T, arr.length ≤ N + 1 →
      arr.length ≤ N ∨ arr.getD N 0 = 0 →
      get (ofArray arr : literal_t T N) N = 0) ∧
    (∀ (x : literal_t T N) (arr : List T), get x N = 0 →
      get (assignArray x arr) N = 0) ∧
    (∀ (M : Nat) (x : literal_t T N) (rhs : literal_t T M), get x N = 0 →
      get (append_str x rhs) N = 0) ∧
    (∀ (x : literal_t T N) (src : List T), get x N = 0 →
      get (append_arr x src) N = 0) ∧
    (∀ (x : literal_t T N) (pos count : Nat),
      get (substr x pos count) N = 0) := by
  refine ⟨size_le, ?_, get_lit_default N, ?_, ?_, ?_, ?_, ?_, ?_, ?_⟩
  · intro x hx
    by_cases h : size x < N
    · exact get_size_of_lt h
    · have : size x = N := by have := size_le x; omega
      rw [this]
      exact hx
  · intro c
    rw [ofScalar, get_mk_fn _ (Nat.le_refl N), if_neg (by omega)]
  · intro M y hM
    rw [widen, get_mk_fn _ (Nat.le_refl N), if_neg (by omega)]
  · intro arr hlen hend
    rw [ofArray, get_mk_fn _ (Nat.le_refl N)]
    rcases hend with h | h
    · rw [if_neg (by omega)]
    · by_cases hc : N < arr.length
      · rw [if_pos hc]
        exact h
      · rw [if_neg hc]
  · intro x arr hx
    rw [assignArray, get_mk_fn _ (Nat.le_refl N), if_neg (by omega)]
    exact hx
  · intro M x rhs hx
    have hsx := size_le x
    rw [get_append_str _ _ (Nat.le_refl N), if_neg (fun hh => by omega)]
    exact hx
  · intro x src hx
    have hsx := size_le x
    rw [append_arr, get_appendRaw _ _ (Nat.le_refl N),
      if_neg (fun hh => by omega)]
    exact hx
  · intro x pos count
    have hsx := size_le x
    rw [substr]
    by_cases h : size x ≤ pos
    · rw [if_pos h]
      exact get_lit_default N
    · rw [if_neg h, get_mk_fn _ (Nat.le_refl N), if_neg (by omega)]

/-- C7 (witness): the amended invariant facts evaluated at capacity 1: a
terminated array construction and the default construction both leave the
last slot default. -/
theorem C7_witness :
    get (ofArray ([5, 0] : List Nat) : literal_t Nat 1) 1 = 0 ∧
    get (lit_default : literal_t Nat 1) 1 = 0 :=
  ⟨(C7_invariant_preservation (by decide)).2.2.2.2.2.1 [5, 0]
      (by decide) (by decide),
   (C7_invariant_preservation (by decide)).2.2.1⟩

/-- C8: under the safe-mode configuration, indexed access on a String
receiver at any index at or beyond `size()` yields the OutOfRange error (the
`std::range_error` of Literal.hpp:258) and, the embedding being pure, leaves
the instance untouched and usable; access below `size()` returns slot `i` and
never errors.  Without safe mode the access is the unchecked slot read and no
check fires. -/
theorem C8_subscript_safe_mode {T : Type} [Zero T] [DecidableEq T] {N : Nat}
    (hN : 0 < N) (x : literal_t T N) (n : Nat) :
    (size x ≤ n →
      subscript_safe x n =
        Except.error "subscript index outside literal_t limits") ∧
    (n < size x → subscript_safe x n = Except.ok (get x n)) ∧
    subscript_fast x n = get x n := by
  refine ⟨fun h => ?_, fun h => ?_, rfl⟩
  · rw [subscript_safe, if_pos h]
  · rw [subscript_safe, if_neg (by omega)]

/-- C8 (witness): safe access at index `size()` of the singleton string `[4]`
errors; unchecked access performs the raw slot read. -/
theorem C8_witness :
    subscript_safe (ofArray ([4, 0] : List Nat) : literal_t Nat 1) 1 =
      Except.error "subscript index outside literal_t limits" ∧
    subscript_fast (ofArray ([4, 0] : List Nat) : literal_t Nat 1) 0 =
      get (ofArray ([4, 0] : List Nat) : literal_t Nat 1) 0 :=
  ⟨(C8_subscript_safe_mode (by decide) (ofArray [4, 0]) 1).1 (by decide),
   (C8_subscript_safe_mode (by decide) (ofArray [4, 0]) 0).2.2⟩

/-- C9: for every String-category instance `s`, extraction of the full
populated range round-trips: `s == s.substr(0, s.size())` under the
string-vs-string branch of `operator ==`. -/
theorem C9_substr_roundtrip {T : Type} [Zero T] [DecidableEq T] {N : Nat}
    (hN : 0 < N) (x : literal_t T N) :
    beq_str_str x (substr x 0 (size x)) = true := by
  have hsx := size_le x
  by_cases h0 : size x = 0
  · rw [substr, if_pos (by omega), beq_str_str]
    simp [h0, size_lit_default]
  · rw [substr, if_neg (by omega)]
    have hmin : min (size x) (size x - 0) = size x := by omega
    have hsize : size (mk_fn N (fun i =>
        if i < min (size x) (size x - 0) then get x (0 + i) else 0)) =
        size x := by
      rw [size_eq_iff]
      refine ⟨hsx, ?_, ?_⟩
      · intro i hi
        rw [get_mk_fn _ (by omega), hmin, if_pos hi]
        simpa using get_of_lt_size hi
      · intro hlt
        rw [get_mk_fn _ (by omega), hmin, if_neg (by omega)]
    rw [beq_str_str, hsize]
    simp only [beq_self_eq_true, Bool.true_and, List.all_eq_true,
      List.mem_range, decide_eq_true_eq]
    intro i hi
    rw [get_mk_fn _ (by omega), hmin, if_pos hi]
    simp

/-- C9 (witness): the round-trip evaluated on the two-element string
`[3, 2]` of capacity 2. -/
theorem C9_witness :
    beq_str_str (ofArray ([3, 2, 0] : List Nat) : literal_t Nat 2)
      (substr (ofArray ([3, 2, 0] : List Nat) : literal_t Nat 2) 0
        (size (ofArray ([3, 2, 0] : List Nat) : literal_t Nat 2))) = true :=
  C9_substr_roundtrip (by decide) (ofArray [3, 2, 0])

/-- C10: for every String receiver, `substr` at a position at or beyond
`size()` returns the default-constructed instance of the same capacity —
empty, every storage slot default; in particular every `substr` of an empty
string is such an instance since every `pos` then qualifies. -/
theorem C10_substr_out_of_range {T : Type} [Zero T] [DecidableEq T]
    {N : Nat} (x : literal_t T N) (pos count : Nat) (h : size x ≤ pos) :
    substr x pos count = (lit_default : literal_t T N) ∧
    size (substr x pos count) = 0 ∧
    ∀ i, get (substr x pos count) i = 0 := by
  have he : substr x pos count = (lit_default : literal_t T N) := by
    rw [substr, if_pos h]
  refine ⟨he, ?_, fun i => ?_⟩
  · rw [he]
    exact size_lit_default
  · rw [he]
    exact get_lit_default i

/-- C10 (witness): `substr` past the end of the singleton string `[5]`
yields the default-constructed capacity-1 instance. -/
theorem C10_witness :
    substr (ofArray ([5, 0] : List Nat) : literal_t Nat 1) 1 7 =
      (lit_default : literal_t Nat 1) ∧
    size (substr (ofArray ([5, 0] : List Nat) : literal_t Nat 1) 1 7) = 0 :=
  ⟨(C10_substr_out_of_range (ofArray [5, 0]) 1 7 (by decide)).1,
   (C10_substr_out_of_range (ofArray [5, 0]) 1 7 (by decide)).2.1⟩

end Langulus
